import Mathlib

/-!
# Training management registry

A shallow embedding of the state handlers of `src/App.js` (the React component
`App`): the four persisted collections (subjects, courses, batches, students),
the form fields shared by all pages, and the click / change handlers that act
on them.  Every handler of the component is a function `State → State`; a
rejected submission is a handler run that ends in `setError(msg)` with a
non-empty message and nothing else.  Events are handled one at a time, each
handler reading the state left by the previous one, so the updater form
`setX(prev => ...)` and the value read from the closure see the same list.

JavaScript strings are modelled by their sequence of UTF-16 code units, which
is what `===`, `<`, `<=`, `>=` and `trim` of the language act on.
`String.prototype.toLowerCase` (the Unicode case table) is not part of the
repository and is a parameter `lower` of every definition that uses it.
-/

namespace TrainingApp

/-- A JavaScript string, as the list of its UTF-16 code units. -/
abbrev JSString := List Nat

/-- UTF-16 code units of one Unicode scalar value. -/
def utf16 (c : Nat) : List Nat :=
  if c < 0x10000 then [c]
  else [0xD800 + (c - 0x10000) / 0x400, 0xDC00 + (c - 0x10000) % 0x400]

/-- The JavaScript string written as the literal `s`. -/
def js (s : String) : JSString :=
  s.toList.flatMap (fun c => utf16 c.toNat)

/-- The relational comparison `a < b` of two JavaScript strings: false when `b` is a
prefix of `a`, true when `a` is a proper prefix of `b`, otherwise decided by
the first code unit where they differ. -/
def strLt : JSString → JSString → Bool
  | _, [] => false
  | [], _ :: _ => true
  | x :: xs, y :: ys => if x = y then strLt xs ys else decide (x < y)

/-- The comparison `a <= b` of two JavaScript strings, which the language evaluates as
`!(b < a)`. -/
def strLe (a b : JSString) : Bool := !strLt b a

/-- The comparison `a >= b` of two JavaScript strings, which the language evaluates as
`!(a < b)`. -/
def strGe (a b : JSString) : Bool := !strLt a b

/-- White space and line terminator code units, the ones `trim` strips. -/
def isWhiteSpace (c : Nat) : Bool :=
  c = 0x09 || c = 0x0A || c = 0x0B || c = 0x0C || c = 0x0D || c = 0x20 ||
  c = 0xA0 || c = 0x1680 || (0x2000 ≤ c && c ≤ 0x200A) || c = 0x2028 ||
  c = 0x2029 || c = 0x202F || c = 0x205F || c = 0x3000 || c = 0xFEFF

/-- The method `String.prototype.trim`: leading and trailing white space removed. -/
def trim (s : JSString) : JSString :=
  ((s.dropWhile isWhiteSpace).reverse.dropWhile isWhiteSpace).reverse

/-- Lower-casing restricted to the ASCII letters; `toLowerCase` agrees with it
on every string made of ASCII code units.  Used to instantiate the parameter
`lower` on concrete inputs. -/
def asciiLower (s : JSString) : JSString :=
  s.map (fun c => if 65 ≤ c ∧ c ≤ 90 then c + 32 else c)

/-- A course record `{ name, subjects }`. -/
structure Course where
  name : JSString
  subjects : List JSString
  deriving DecidableEq, Repr

/-- A batch record `{ name, course, start, end }`. -/
structure Batch where
  name : JSString
  course : JSString
  start : JSString
  end_ : JSString
  deriving DecidableEq, Repr

/-- A student record `{ name, course, batch }`. -/
structure Student where
  name : JSString
  course : JSString
  batch : JSString
  deriving DecidableEq, Repr

/-- The component state: one field per `useState` of `App`. -/
structure State where
  page : JSString
  subjects : List JSString
  courses : List Course
  batches : List Batch
  students : List Student
  name : JSString
  selectedSubjects : List JSString
  selectedCourse : JSString
  start : JSString
  end_ : JSString
  error : JSString
  deriving DecidableEq, Repr

/-- The state of a first run: `localStorage` holds nothing, so the four
collections are empty; the form fields have their `useState` defaults. -/
def init : State :=
  { page := js "dashboard", subjects := [], courses := [], batches := [],
    students := [], name := [], selectedSubjects := [], selectedCourse := [],
    start := [], end_ := [], error := [] }

/-- The call `setError(msg)`, the whole effect of a rejected submission. -/
def setError (msg : JSString) (s : State) : State := { s with error := msg }

/-- Handler `addSubject` (App.js lines 33-43). -/
def addSubject (lower : JSString → JSString) (s : State) : State :=
  let trimmed := trim s.name
  if trimmed = [] then setError (js "Subject name required") s
  else if s.subjects.any (fun x => lower x = lower trimmed) then
    setError (js "Duplicate subject not allowed") s
  else { s with subjects := s.subjects ++ [trimmed], name := [], error := [] }

/-- Handler `deleteSubject` (App.js lines 45-54). -/
def deleteSubject (subject : JSString) (s : State) : State :=
  { s with
    subjects := s.subjects.filter (fun x => x ≠ subject),
    courses := s.courses.map (fun c =>
      { c with subjects := c.subjects.filter (fun x => x ≠ subject) }) }

/-- Handler `toggleSubject` (App.js lines 58-64). -/
def toggleSubject (subject : JSString) (s : State) : State :=
  { s with
    selectedSubjects :=
      if subject ∈ s.selectedSubjects then
        s.selectedSubjects.filter (fun x => x ≠ subject)
      else s.selectedSubjects ++ [subject] }

/-- Handler `addCourse` (App.js lines 66-82). -/
def addCourse (lower : JSString → JSString) (s : State) : State :=
  let trimmed := trim s.name
  if trimmed = [] then setError (js "Course name required") s
  else if s.subjects.length < 2 then
    setError (js "Create at least 2 subjects first") s
  else if s.selectedSubjects.length < 2 then
    setError (js "Minimum 2 subjects required") s
  else if s.courses.any (fun c => lower c.name = lower trimmed) then
    setError (js "Duplicate course name") s
  else
    { s with
      courses := s.courses ++ [{ name := trimmed, subjects := s.selectedSubjects }],
      name := [], selectedSubjects := [], error := [] }

/-- Handler `deleteCourse` (App.js lines 84-88). -/
def deleteCourse (courseName : JSString) (s : State) : State :=
  { s with
    courses := s.courses.filter (fun c => c.name ≠ courseName),
    batches := s.batches.filter (fun b => b.course ≠ courseName),
    students := s.students.filter (fun st => st.course ≠ courseName) }

/-- The callback of `batches.some` in `addBatch` (App.js line 100):
`b.course === selectedCourse && !(end <= b.start || start >= b.end)`. -/
def overlaps (selectedCourse start end_ : JSString) (b : Batch) : Bool :=
  decide (b.course = selectedCourse) && !(strLe end_ b.start || strGe start b.end_)

/-- Handler `addBatch` (App.js lines 92-112). -/
def addBatch (s : State) : State :=
  if trim s.name = [] ∨ s.selectedCourse = [] ∨ s.start = [] ∨ s.end_ = [] then
    setError (js "All fields required") s
  else if strGe s.start s.end_ then
    setError (js "Start time must be before end time") s
  else if s.batches.any (overlaps s.selectedCourse s.start s.end_) then
    setError (js "Batch timing overlaps") s
  else
    { s with
      batches := s.batches ++
        [{ name := s.name, course := s.selectedCourse, start := s.start, end_ := s.end_ }],
      name := [], selectedCourse := [], start := [], end_ := [], error := [] }

/-- Handler `deleteBatch` (App.js lines 114-117). -/
def deleteBatch (batchName : JSString) (s : State) : State :=
  { s with
    batches := s.batches.filter (fun b => b.name ≠ batchName),
    students := s.students.filter (fun st => st.batch ≠ batchName) }

/-- Handler `addStudent` (App.js lines 121-134).  `selectedSubjects[0]` is read
only after the length test, where the list has a first element. -/
def addStudent (s : State) : State :=
  if trim s.name = [] ∨ s.selectedCourse = [] ∨ s.selectedSubjects.length = 0 then
    setError (js "All fields required") s
  else
    { s with
      students := s.students ++
        [{ name := s.name, course := s.selectedCourse, batch := s.selectedSubjects.headD [] }],
      name := [], selectedCourse := [], selectedSubjects := [], error := [] }

/-- The derived list `filteredBatches` (App.js line 136). -/
def filteredBatches (s : State) : List Batch :=
  s.batches.filter (fun b => b.course = s.selectedCourse)

/-- Everything the rendered page can do to the state: the navigation buttons,
the `onChange` of each form control, and the seven handlers. -/
inductive Action where
  | setPage (p : JSString)
  | setName (v : JSString)
  | toggleSubject (subject : JSString)
  | setSelectedCourse (v : JSString)
  | setStart (v : JSString)
  | setEnd (v : JSString)
  | selectBatch (v : JSString)
  | addSubject
  | deleteSubject (subject : JSString)
  | addCourse
  | deleteCourse (courseName : JSString)
  | addBatch
  | deleteBatch (batchName : JSString)
  | addStudent
  deriving DecidableEq, Repr

/-- One event: the state after the handler bound to the control has run. -/
def step (lower : JSString → JSString) (a : Action) (s : State) : State :=
  match a with
  | .setPage p => { s with page := p, error := [] }
  | .setName v => { s with name := v }
  | .toggleSubject subject => toggleSubject subject s
  | .setSelectedCourse v => { s with selectedCourse := v }
  | .setStart v => { s with start := v }
  | .setEnd v => { s with end_ := v }
  | .selectBatch v => { s with selectedSubjects := [v] }
  | .addSubject => addSubject lower s
  | .deleteSubject subject => deleteSubject subject s
  | .addCourse => addCourse lower s
  | .deleteCourse courseName => deleteCourse courseName s
  | .addBatch => addBatch s
  | .deleteBatch batchName => deleteBatch batchName s
  | .addStudent => addStudent s

/-- A finite sequence of events, run from `s` in order. -/
def run (lower : JSString → JSString) (acts : List Action) (s : State) : State :=
  acts.foldl (fun st a => step lower a st) s

/-- States the component can be in after finitely many events of a first run. -/
def Reachable (lower : JSString → JSString) (s : State) : Prop :=
  ∃ acts : List Action, s = run lower acts init

/-- Values an `input type="time"` reports: empty, or `HH:MM` on the 24-hour clock. -/
def isTimeValue (v : JSString) : Bool :=
  match v with
  | [] => true
  | [h1, h2, c, m1, m2] =>
      decide (48 ≤ h1 ∧ h1 ≤ 50 ∧ 48 ≤ h2 ∧ h2 ≤ 57 ∧ (h1 - 48) * 10 + (h2 - 48) < 24 ∧
        c = 58 ∧ 48 ≤ m1 ∧ m1 ≤ 53 ∧ 48 ≤ m2 ∧ m2 ≤ 57)
  | _ => false

/-- Whether the page rendered for state `s` (App.js lines 140-286) offers the
control that fires `a`: each button and field is drawn only on its own page,
a `select` reports only the value of one of its options, and a delete button
exists only for a listed entry. -/
def uiEnabled (s : State) (a : Action) : Bool :=
  match a with
  | .setPage p =>
      decide (p ∈ [js "dashboard", js "subjects", js "courses", js "batches", js "students"])
  | .setName _ => decide (s.page ≠ js "dashboard")
  | .toggleSubject subject => decide (s.page = js "courses" ∧ subject ∈ s.subjects)
  | .setSelectedCourse v =>
      decide ((s.page = js "batches" ∨ s.page = js "students") ∧
        (v = [] ∨ v ∈ s.courses.map Course.name))
  | .setStart v => decide (s.page = js "batches") && isTimeValue v
  | .setEnd v => decide (s.page = js "batches") && isTimeValue v
  | .selectBatch v =>
      decide (s.page = js "students" ∧ (v = [] ∨ v ∈ (filteredBatches s).map Batch.name))
  | .addSubject => decide (s.page = js "subjects")
  | .deleteSubject subject => decide (s.page = js "subjects" ∧ subject ∈ s.subjects)
  | .addCourse => decide (s.page = js "courses")
  | .deleteCourse courseName =>
      decide (s.page = js "courses" ∧ courseName ∈ s.courses.map Course.name)
  | .addBatch => decide (s.page = js "batches")
  | .deleteBatch batchName =>
      decide (s.page = js "batches" ∧ batchName ∈ s.batches.map Batch.name)
  | .addStudent => decide (s.page = js "students")

/-- Whether every event of `acts`, run from `s`, is offered by the page on
which it is fired. -/
def uiTrace (lower : JSString → JSString) : State → List Action → Bool
  | _, [] => true
  | s, a :: rest => uiEnabled s a && uiTrace lower (step lower a s) rest

/-- The comparison `a > b` of two JavaScript strings, which the language evaluates as
`b < a`. -/
def strGt (a b : JSString) : Bool := strLt b a

/-- Two stored batches are compatible when, if they are of the same course, one
ends no later (`<=`) than the other starts. -/
def Compatible (a b : Batch) : Prop :=
  a.course = b.course → strLe a.end_ b.start = true ∨ strLe b.end_ a.start = true

/-- The scheduling condition on a batch list: every batch starts before it
ends and the batches are pairwise compatible. -/
def Scheduled (bs : List Batch) : Prop :=
  (∀ b ∈ bs, strLt b.start b.end_ = true) ∧ bs.Pairwise Compatible

/-- The four persisted collections of `t` are those of `s`. -/
def SameCollections (s t : State) : Prop :=
  t.subjects = s.subjects ∧ t.courses = s.courses ∧ t.batches = s.batches ∧
    t.students = s.students

/-- A submission was rejected: the handler left a validation message in `error`. -/
def Rejected (t : State) : Prop := t.error ≠ []

instance (t : State) : Decidable (Rejected t) := by unfold Rejected; infer_instance

/-- The condition `addCourse` establishes for a course it stores: at least two
subjects, no subject twice. -/
def WellFormedCourse (c : Course) : Prop := 2 ≤ c.subjects.length ∧ c.subjects.Nodup

/-! ## Concrete sessions -/

/-- A session that creates the subjects Math and Physics and, from both, the
course Sci. -/
def createSci : List Action :=
  [Action.setPage (js "subjects"), Action.setName (js "Math"), Action.addSubject,
   Action.setName (js "Physics"), Action.addSubject,
   Action.setPage (js "courses"), Action.toggleSubject (js "Math"),
   Action.toggleSubject (js "Physics"), Action.setName (js "Sci"), Action.addCourse]

/-- The session `createSci`, stopped before the button Create Course is pressed. -/
def fillSci : List Action := createSci.dropLast

/-- The session `createSci` followed by the deletion of the subject Math. -/
def shrinkSci : List Action :=
  createSci ++ [Action.setPage (js "subjects"), Action.deleteSubject (js "Math")]

/-- A session that selects the course Sci on the batches page, deletes the course
on the courses page, and then submits the batch form. -/
def orphanBatch : List Action :=
  createSci ++
  [Action.setPage (js "batches"), Action.setSelectedCourse (js "Sci"),
   Action.setPage (js "courses"), Action.deleteCourse (js "Sci"),
   Action.setPage (js "batches"), Action.setName (js "A"),
   Action.setStart (js "09:00"), Action.setEnd (js "10:00"), Action.addBatch]

/-- A session that ticks Math, selects the course Sci on the students page, deletes
the course on the courses page, and then submits the student form. -/
def orphanStudent : List Action :=
  createSci ++
  [Action.toggleSubject (js "Math"),
   Action.setPage (js "students"), Action.setSelectedCourse (js "Sci"),
   Action.setPage (js "courses"), Action.deleteCourse (js "Sci"),
   Action.setPage (js "students"), Action.setName (js "Bob"), Action.addStudent]

/-- The session `createSci` followed by the creation of batch A of Sci, 09:00 to
10:00. -/
def createBatchA : List Action :=
  createSci ++
  [Action.setPage (js "batches"), Action.setName (js "A"),
   Action.setSelectedCourse (js "Sci"), Action.setStart (js "09:00"),
   Action.setEnd (js "10:00"), Action.addBatch]

/-- The batch form filled in with the given values. -/
def fillBatch (name course start end_ : JSString) (s : State) : State :=
  { s with name := name, selectedCourse := course, start := start, end_ := end_ }

/-- The state after `createBatchA`. -/
def withBatchA : State := run asciiLower createBatchA init

/-- The session `createBatchA` followed by the creation of batch C of Sci, 10:00 to
11:00. -/
def createBatchC : List Action :=
  createBatchA ++
  [Action.setName (js "C"), Action.setSelectedCourse (js "Sci"),
   Action.setStart (js "10:00"), Action.setEnd (js "11:00"), Action.addBatch]

/-- The state after `createBatchC`. -/
def withBatchC : State := run asciiLower createBatchC init

/-- The state after `createSci`. -/
def withSci : State := run asciiLower createSci init

/-- A session in which, after Math has been added, Physics is added and the
delete handler is called with the lower-case spelling of Math. -/
def afterMath : List Action :=
  [Action.setName (js "Physics"), Action.addSubject, Action.deleteSubject (js "math")]

/-- Whether event `a`, fired in state `s`, spares the stored courses: every event
does, except a `deleteSubject x` fired while some stored course lists `x`
among fewer than 3 subjects. -/
def sparesCourses (s : State) (a : Action) : Bool :=
  match a with
  | .deleteSubject x =>
      s.courses.all (fun c => decide (x ∈ c.subjects → 3 ≤ c.subjects.length))
  | _ => true

/-- Whether every event of `acts`, run from `s`, spares the courses stored at
the moment it is fired. -/
def sparingTrace (lower : JSString → JSString) : State → List Action → Bool
  | _, [] => true
  | s, a :: rest => sparesCourses s a && sparingTrace lower (step lower a s) rest

/-- A session that adds and deletes the subject Chem, adds Math, Physics and Bio,
creates the course All from the three, and then deletes Bio. -/
def createAll : List Action :=
  [Action.setPage (js "subjects"), Action.setName (js "Chem"), Action.addSubject,
   Action.deleteSubject (js "Chem"),
   Action.setName (js "Math"), Action.addSubject,
   Action.setName (js "Physics"), Action.addSubject,
   Action.setName (js "Bio"), Action.addSubject,
   Action.setPage (js "courses"), Action.toggleSubject (js "Math"),
   Action.toggleSubject (js "Physics"), Action.toggleSubject (js "Bio"),
   Action.setName (js "All"), Action.addCourse,
   Action.setPage (js "subjects"), Action.deleteSubject (js "Bio")]

/-! ## General facts -/

theorem run_snoc (lower : JSString → JSString) (a : Action) (acts : List Action) (s : State) :
    run lower (acts ++ [a]) s = step lower a (run lower acts s) := by
  simp [run, List.foldl_append]

/-- Induction along a run: a property kept by every permitted event holds
after any sequence of permitted events. -/
theorem run_invariant (lower : JSString → JSString) (P : State → Prop) (Q : Action → Prop)
    (hstep : ∀ a s, Q a → P s → P (step lower a s)) :
    ∀ (acts : List Action) (s : State), (∀ a ∈ acts, Q a) → P s → P (run lower acts s)
  | [], _, _, hs => hs
  | a :: acts, s, hq, hs =>
      run_invariant lower P Q hstep acts (step lower a s)
        (fun b hb => hq b (List.mem_cons_of_mem _ hb))
        (hstep a s (hq a (List.mem_cons_self _ _)) hs)

theorem reachable_invariant (lower : JSString → JSString) (P : State → Prop) (h0 : P init)
    (hstep : ∀ a s, P s → P (step lower a s)) (s : State) (hs : Reachable lower s) : P s := by
  obtain ⟨acts, rfl⟩ := hs
  exact run_invariant lower P (fun _ => True) (fun a s _ h => hstep a s h) acts init
    (fun _ _ => trivial) h0

theorem reachable_init (lower : JSString → JSString) : Reachable lower init := ⟨[], rfl⟩

theorem reachable_step (lower : JSString → JSString) (a : Action) (s : State)
    (hs : Reachable lower s) : Reachable lower (step lower a s) := by
  obtain ⟨acts, rfl⟩ := hs
  exact ⟨acts ++ [a], (run_snoc lower a acts init).symm⟩

theorem reachable_run (lower : JSString → JSString) (acts : List Action) (s : State)
    (hs : Reachable lower s) : Reachable lower (run lower acts s) :=
  run_invariant lower (Reachable lower) (fun _ => True)
    (fun a s _ h => reachable_step lower a s h) acts s (fun _ _ => trivial) hs

/-! ## String comparison -/

theorem strLt_irrefl (a : JSString) : strLt a a = false := by
  induction a with
  | nil => rfl
  | cons x xs ih => simp [strLt, ih]

theorem strLt_asymm : ∀ (a b : JSString), strLt a b = true → strLt b a = false
  | _, [], h => by simp [strLt] at h
  | [], _ :: _, _ => by simp [strLt]
  | x :: xs, y :: ys, h => by
      by_cases hxy : x = y
      · subst hxy
        simp only [strLt, if_true] at h ⊢
        exact strLt_asymm xs ys h
      · have hyx : ¬ y = x := fun e => hxy e.symm
        simp only [strLt, hxy, hyx, if_false, decide_eq_true_eq, decide_eq_false_iff_not] at h ⊢
        omega

theorem strLt_total : ∀ (a b : JSString), strLt a b = true ∨ a = b ∨ strLt b a = true
  | [], [] => Or.inr (Or.inl rfl)
  | [], _ :: _ => Or.inl (by simp [strLt])
  | _ :: _, [] => Or.inr (Or.inr (by simp [strLt]))
  | x :: xs, y :: ys => by
      by_cases hxy : x = y
      · subst hxy
        simp only [strLt, if_true, List.cons.injEq, true_and]
        exact strLt_total xs ys
      · have hyx : ¬ y = x := fun e => hxy e.symm
        simp only [strLt, hxy, hyx, if_false, decide_eq_true_eq, List.cons.injEq, false_and]
        omega

/-- The comparison `<=` of the language is "less than or equal". -/
theorem strLe_iff (a b : JSString) : strLe a b = true ↔ strLt a b = true ∨ a = b := by
  unfold strLe
  constructor
  · intro h
    rcases strLt_total a b with h1 | h1 | h1
    · exact Or.inl h1
    · exact Or.inr h1
    · simp [h1] at h
  · rintro (h | h)
    · simp [strLt_asymm a b h]
    · subst h
      simp [strLt_irrefl]

/-! ## The batch schedule -/

theorem scheduled_nil : Scheduled [] := ⟨by simp, List.Pairwise.nil⟩

theorem scheduled_filter (p : Batch → Bool) (bs : List Batch) (h : Scheduled bs) :
    Scheduled (bs.filter p) :=
  ⟨fun b hb => h.1 b (List.mem_filter.mp hb).1, h.2.sublist (List.filter_sublist bs)⟩

theorem compatible_of_not_overlaps (c st en : JSString) (b : Batch)
    (h : overlaps c st en b = false) (n : JSString) :
    Compatible b { name := n, course := c, start := st, end_ := en } := by
  intro hc
  have hc2 : b.course = c := hc
  unfold overlaps strLe strGe at h
  show (!strLt st b.end_) = true ∨ (!strLt b.start en) = true
  cases h1 : strLt b.start en <;> cases h2 : strLt st b.end_ <;> simp_all

theorem addBatch_scheduled (s : State) (h : Scheduled s.batches) :
    Scheduled (addBatch s).batches := by
  unfold addBatch
  split_ifs with h1 h2 h3
  · exact h
  · exact h
  · exact h
  · have hlt : strLt s.start s.end_ = true := by simpa [strGe] using h2
    have hno : ∀ b ∈ s.batches, overlaps s.selectedCourse s.start s.end_ b = false := by
      simpa using h3
    refine ⟨?_, ?_⟩
    · intro b hb
      rcases List.mem_append.mp hb with hb | hb
      · exact h.1 b hb
      · rw [List.mem_singleton.mp hb]
        exact hlt
    · refine List.pairwise_append.mpr ⟨h.2, List.pairwise_singleton _ _, ?_⟩
      intro a ha b hb
      rw [List.mem_singleton.mp hb]
      exact compatible_of_not_overlaps _ _ _ a (hno a ha) s.name

theorem step_scheduled (lower : JSString → JSString) (a : Action) (s : State)
    (h : Scheduled s.batches) : Scheduled (step lower a s).batches := by
  cases a with
  | addBatch => exact addBatch_scheduled s h
  | deleteCourse n => exact scheduled_filter _ _ h
  | deleteBatch n => exact scheduled_filter _ _ h
  | addSubject =>
      simp only [step, addSubject]
      split_ifs <;> exact h
  | addCourse =>
      simp only [step, addCourse]
      split_ifs <;> exact h
  | addStudent =>
      simp only [step, addStudent]
      split_ifs <;> exact h
  | _ => exact h

/-- Claim C1.  In every state reachable from the empty collections by any finite
sequence of events (the seven handlers, with arbitrary field and selection
changes in between), every stored batch has `start < end`, and any two batches
at different positions of the batch list that have the same course satisfy
`end <= start` one way or the other, so their half-open intervals do not
overlap. -/
theorem scheduling_invariant (lower : JSString → JSString) (s : State)
    (hs : Reachable lower s) :
    (∀ b ∈ s.batches, strLt b.start b.end_ = true) ∧
    (∀ (i j : Nat) (hi : i < s.batches.length) (hj : j < s.batches.length), i ≠ j →
      (s.batches.get ⟨i, hi⟩).course = (s.batches.get ⟨j, hj⟩).course →
      strLe (s.batches.get ⟨i, hi⟩).end_ (s.batches.get ⟨j, hj⟩).start = true ∨
      strLe (s.batches.get ⟨j, hj⟩).end_ (s.batches.get ⟨i, hi⟩).start = true) := by
  have h : Scheduled s.batches :=
    reachable_invariant lower (fun t => Scheduled t.batches) scheduled_nil
      (step_scheduled lower) s hs
  refine ⟨h.1, ?_⟩
  intro i j hi hj hij hc
  have hp := List.pairwise_iff_get.mp h.2
  rcases Nat.lt_or_gt_of_ne hij with hlt | hgt
  · exact hp ⟨i, hi⟩ ⟨j, hj⟩ hlt hc
  · exact (hp ⟨j, hj⟩ ⟨i, hi⟩ hgt hc.symm).symm

/-! ## Acceptance and rejection of submissions -/

theorem rejected_setError (m : JSString) (s : State) (h : m ≠ []) :
    Rejected (setError m s) := h

theorem addBatch_rejected_iff (s : State) :
    Rejected (addBatch s) ↔
      (trim s.name = [] ∨ s.selectedCourse = [] ∨ s.start = [] ∨ s.end_ = []) ∨
      strGe s.start s.end_ = true ∨
      s.batches.any (overlaps s.selectedCourse s.start s.end_) = true := by
  unfold addBatch
  split_ifs with h1 h2 h3
  · exact ⟨fun _ => Or.inl h1, fun _ => rejected_setError _ _ (by decide)⟩
  · exact ⟨fun _ => Or.inr (Or.inl h2), fun _ => rejected_setError _ _ (by decide)⟩
  · exact ⟨fun _ => Or.inr (Or.inr h3), fun _ => rejected_setError _ _ (by decide)⟩
  · constructor
    · intro h
      exact absurd rfl h
    · rintro (h | h | h)
      · exact absurd h h1
      · exact absurd h h2
      · exact absurd h h3

theorem overlaps_iff (c st en : JSString) (b : Batch) :
    overlaps c st en b = true ↔
      b.course = c ∧ strGt b.end_ st = true ∧ strLt b.start en = true := by
  unfold overlaps strLe strGe strGt
  cases h1 : strLt b.start en <;> cases h2 : strLt st b.end_ <;> simp

/-- Claim C2.  For an input with a non-blank name and non-empty course, start
and end, `addBatch` accepts exactly when `start < end` and no stored batch `b`
has `b.course` equal to the chosen course with `b.end > start` and
`b.start < end`; an accepted input appends the one record
`{ name, course, start, end }` to the batch list, a rejected one leaves the
list as it was.  In particular the input is accepted when every stored batch of
the chosen course ends exactly where the new one starts, and when every stored
batch is of another course, whatever its interval. -/
theorem addBatch_acceptance (s : State) (hname : trim s.name ≠ [])
    (hcourse : s.selectedCourse ≠ []) (hstart : s.start ≠ []) (hend : s.end_ ≠ []) :
    (¬ Rejected (addBatch s) ↔
      strLt s.start s.end_ = true ∧
      ¬ ∃ b ∈ s.batches, b.course = s.selectedCourse ∧
          strGt b.end_ s.start = true ∧ strLt b.start s.end_ = true) ∧
    (¬ Rejected (addBatch s) →
      (addBatch s).batches = s.batches ++
        [{ name := s.name, course := s.selectedCourse, start := s.start, end_ := s.end_ }]) ∧
    (Rejected (addBatch s) → (addBatch s).batches = s.batches) ∧
    (strLt s.start s.end_ = true →
      (∀ b ∈ s.batches, b.course = s.selectedCourse → b.end_ = s.start) →
      ¬ Rejected (addBatch s)) ∧
    (strLt s.start s.end_ = true →
      (∀ b ∈ s.batches, b.course ≠ s.selectedCourse) →
      ¬ Rejected (addBatch s)) := by
  have hfields : ¬ (trim s.name = [] ∨ s.selectedCourse = [] ∨ s.start = [] ∨ s.end_ = []) := by
    rintro (h | h | h | h)
    · exact hname h
    · exact hcourse h
    · exact hstart h
    · exact hend h
  have hiff : ¬ Rejected (addBatch s) ↔
      strLt s.start s.end_ = true ∧
      ¬ ∃ b ∈ s.batches, b.course = s.selectedCourse ∧
          strGt b.end_ s.start = true ∧ strLt b.start s.end_ = true := by
    rw [addBatch_rejected_iff]
    constructor
    · intro h
      refine ⟨?_, ?_⟩
      · cases hlt : strLt s.start s.end_
        · exact absurd (Or.inr (Or.inl (by simp [strGe, hlt]))) h
        · rfl
      · rintro ⟨b, hb, hov⟩
        exact h (Or.inr (Or.inr (List.any_eq_true.mpr ⟨b, hb, (overlaps_iff _ _ _ b).mpr hov⟩)))
    · rintro ⟨hlt, hno⟩ (h | h | h)
      · exact hfields h
      · simp [strGe, hlt] at h
      · obtain ⟨b, hb, hov⟩ := List.any_eq_true.mp h
        exact hno ⟨b, hb, (overlaps_iff _ _ _ b).mp hov⟩
  refine ⟨hiff, ?_, ?_, ?_, ?_⟩
  · intro h
    have h2 := (addBatch_rejected_iff s).not.mp h
    have e2 : ¬ strGe s.start s.end_ = true := fun x => h2 (Or.inr (Or.inl x))
    have e3 : ¬ s.batches.any (overlaps s.selectedCourse s.start s.end_) = true :=
      fun x => h2 (Or.inr (Or.inr x))
    unfold addBatch
    rw [if_neg hfields, if_neg e2, if_neg e3]
  · intro h
    unfold addBatch at h ⊢
    split_ifs at h ⊢ <;> first | rfl | exact absurd rfl h
  · intro hlt hall
    refine hiff.mpr ⟨hlt, ?_⟩
    rintro ⟨b, hb, hc, hgt, _⟩
    rw [hall b hb hc] at hgt
    simp [strGt, strLt_irrefl] at hgt
  · intro hlt hall
    refine hiff.mpr ⟨hlt, ?_⟩
    rintro ⟨b, hb, hc, _, _⟩
    exact hall b hb hc

/-- Claim C3.  Whenever `addSubject`, `addCourse`, `addBatch` or `addStudent`
rejects its input (leaves a validation message), the subjects, courses, batches
and students after the call are those before it; the message is in fact the
only thing the call changed. -/
theorem atomic_rejection (lower : JSString → JSString) (s : State) (a : Action)
    (ha : a = Action.addSubject ∨ a = Action.addCourse ∨ a = Action.addBatch ∨
      a = Action.addStudent)
    (hrej : Rejected (step lower a s)) :
    SameCollections s (step lower a s) ∧
    step lower a s = setError (step lower a s).error s := by
  rcases ha with rfl | rfl | rfl | rfl
  · simp only [step, addSubject] at hrej ⊢
    split_ifs at hrej ⊢
    · exact ⟨⟨rfl, rfl, rfl, rfl⟩, rfl⟩
    · exact ⟨⟨rfl, rfl, rfl, rfl⟩, rfl⟩
    · exact absurd rfl hrej
  · simp only [step, addCourse] at hrej ⊢
    split_ifs at hrej ⊢
    · exact ⟨⟨rfl, rfl, rfl, rfl⟩, rfl⟩
    · exact ⟨⟨rfl, rfl, rfl, rfl⟩, rfl⟩
    · exact ⟨⟨rfl, rfl, rfl, rfl⟩, rfl⟩
    · exact ⟨⟨rfl, rfl, rfl, rfl⟩, rfl⟩
    · exact absurd rfl hrej
  · simp only [step, addBatch] at hrej ⊢
    split_ifs at hrej ⊢
    · exact ⟨⟨rfl, rfl, rfl, rfl⟩, rfl⟩
    · exact ⟨⟨rfl, rfl, rfl, rfl⟩, rfl⟩
    · exact ⟨⟨rfl, rfl, rfl, rfl⟩, rfl⟩
    · exact absurd rfl hrej
  · simp only [step, addStudent] at hrej ⊢
    split_ifs at hrej ⊢
    · exact ⟨⟨rfl, rfl, rfl, rfl⟩, rfl⟩
    · exact absurd rfl hrej

/-! ## Cascading deletion -/

/-- Claim C4.  After `deleteCourse n` the course list is the old one without the
courses named `n`, the batch list the old one without the batches of course
`n`, the student list the old one without the students of course `n`; so
nothing left names `n` as its course, every other entry survives, the
survivors keep their relative order, and the subject list is unchanged. -/
theorem deleteCourse_cascade (n : JSString) (s : State) :
    (deleteCourse n s).courses = s.courses.filter (fun c => c.name ≠ n) ∧
    (deleteCourse n s).batches = s.batches.filter (fun b => b.course ≠ n) ∧
    (deleteCourse n s).students = s.students.filter (fun st => st.course ≠ n) ∧
    (deleteCourse n s).subjects = s.subjects ∧
    (∀ c, c ∈ (deleteCourse n s).courses ↔ c ∈ s.courses ∧ c.name ≠ n) ∧
    (∀ b, b ∈ (deleteCourse n s).batches ↔ b ∈ s.batches ∧ b.course ≠ n) ∧
    (∀ st, st ∈ (deleteCourse n s).students ↔ st ∈ s.students ∧ st.course ≠ n) ∧
    (deleteCourse n s).courses.Sublist s.courses ∧
    (deleteCourse n s).batches.Sublist s.batches ∧
    (deleteCourse n s).students.Sublist s.students := by
  refine ⟨rfl, rfl, rfl, rfl, ?_, ?_, ?_, ?_, ?_, ?_⟩
  · intro c
    simp [deleteCourse, List.mem_filter]
  · intro b
    simp [deleteCourse, List.mem_filter]
  · intro st
    simp [deleteCourse, List.mem_filter]
  · exact List.filter_sublist _
  · exact List.filter_sublist _
  · exact List.filter_sublist _

/-- Claim C10.  After `deleteBatch n` the batch list is the old one without the
batches named `n` and the student list the old one without the students whose
`batch` field is `n`; so no remaining student refers to `n`, every other batch
and student survives in its original relative order, and the subject and
course lists are unchanged. -/
theorem deleteBatch_cascade (n : JSString) (s : State) :
    (deleteBatch n s).batches = s.batches.filter (fun b => b.name ≠ n) ∧
    (deleteBatch n s).students = s.students.filter (fun st => st.batch ≠ n) ∧
    (deleteBatch n s).subjects = s.subjects ∧
    (deleteBatch n s).courses = s.courses ∧
    (∀ b, b ∈ (deleteBatch n s).batches ↔ b ∈ s.batches ∧ b.name ≠ n) ∧
    (∀ st, st ∈ (deleteBatch n s).students ↔ st ∈ s.students ∧ st.batch ≠ n) ∧
    (deleteBatch n s).batches.Sublist s.batches ∧
    (deleteBatch n s).students.Sublist s.students := by
  refine ⟨rfl, rfl, rfl, rfl, ?_, ?_, ?_, ?_⟩
  · intro b
    simp [deleteBatch, List.mem_filter]
  · intro st
    simp [deleteBatch, List.mem_filter]
  · exact List.filter_sublist _
  · exact List.filter_sublist _

/-- Claim C8.  After `deleteSubject x` the subject list is the old one without the
entries equal to `x`; the course list has the same length and the same names
in the same order, each course keeping its old subject list without `x` (so no
course references `x`, and none is dropped however few subjects it keeps);
batches, students and the error message are unchanged, and when `x` is not a
subject the subject list is unchanged too. -/
theorem deleteSubject_cascade (x : JSString) (s : State) :
    (deleteSubject x s).subjects = s.subjects.filter (fun y => y ≠ x) ∧
    (deleteSubject x s).courses.length = s.courses.length ∧
    (deleteSubject x s).courses.map Course.name = s.courses.map Course.name ∧
    (deleteSubject x s).courses.map Course.subjects =
      s.courses.map (fun c => c.subjects.filter (fun y => y ≠ x)) ∧
    (∀ c ∈ (deleteSubject x s).courses, x ∉ c.subjects) ∧
    (deleteSubject x s).batches = s.batches ∧
    (deleteSubject x s).students = s.students ∧
    (deleteSubject x s).error = s.error ∧
    (x ∉ s.subjects → (deleteSubject x s).subjects = s.subjects) := by
  refine ⟨rfl, ?_, ?_, ?_, ?_, rfl, rfl, rfl, ?_⟩
  · simp [deleteSubject]
  · simp [deleteSubject, Function.comp_def]
  · simp [deleteSubject, Function.comp_def]
  · intro c hc
    simp only [deleteSubject, List.mem_map] at hc
    obtain ⟨c0, _, rfl⟩ := hc
    simp [List.mem_filter]
  · intro hx
    simp only [deleteSubject]
    rw [List.filter_eq_self]
    intro y hy
    have : y ≠ x := fun e => hx (e ▸ hy)
    simpa using this

theorem addCourse_rejected_iff (lower : JSString → JSString) (s : State) :
    Rejected (addCourse lower s) ↔
      trim s.name = [] ∨ s.subjects.length < 2 ∨ s.selectedSubjects.length < 2 ∨
      ∃ c ∈ s.courses, lower c.name = lower (trim s.name) := by
  simp only [addCourse]
  split_ifs with h1 h2 h3 h4
  · exact ⟨fun _ => Or.inl h1, fun _ => rejected_setError _ _ (by decide)⟩
  · exact ⟨fun _ => Or.inr (Or.inl h2), fun _ => rejected_setError _ _ (by decide)⟩
  · exact ⟨fun _ => Or.inr (Or.inr (Or.inl h3)), fun _ => rejected_setError _ _ (by decide)⟩
  · refine ⟨fun _ => Or.inr (Or.inr (Or.inr ?_)), fun _ => rejected_setError _ _ (by decide)⟩
    obtain ⟨c, hc, hl⟩ := List.any_eq_true.mp h4
    exact ⟨c, hc, by simpa using hl⟩
  · constructor
    · intro h
      exact absurd rfl h
    · rintro (h | h | h | ⟨c, hc, hl⟩)
      · exact absurd h h1
      · exact absurd h h2
      · exact absurd h h3
      · exact absurd (List.any_eq_true.mpr ⟨c, hc, by simpa using hl⟩) h4

/-- Claim C9.  `addCourse` rejects exactly when the trimmed name is empty, or fewer
than 2 subjects exist, or fewer than 2 subjects are selected, or a stored
course has the trimmed name up to case; otherwise it appends the one course
`{ trimmed name, selected subjects }` and leaves subjects, batches and students
as they were.  With subjects Math and Physics and no course, the name Sci is
rejected with Math alone selected and accepted with both selected. -/
theorem addCourse_acceptance (lower : JSString → JSString) (s : State) :
    (Rejected (addCourse lower s) ↔
      trim s.name = [] ∨ s.subjects.length < 2 ∨ s.selectedSubjects.length < 2 ∨
      ∃ c ∈ s.courses, lower c.name = lower (trim s.name)) ∧
    (¬ Rejected (addCourse lower s) →
      (addCourse lower s).courses =
        s.courses ++ [{ name := trim s.name, subjects := s.selectedSubjects }] ∧
      (addCourse lower s).subjects = s.subjects ∧
      (addCourse lower s).batches = s.batches ∧
      (addCourse lower s).students = s.students) ∧
    Rejected (addCourse lower
      { init with subjects := [js "Math", js "Physics"], name := js "Sci",
                  selectedSubjects := [js "Math"] }) ∧
    ¬ Rejected (addCourse lower
      { init with subjects := [js "Math", js "Physics"], name := js "Sci",
                  selectedSubjects := [js "Math", js "Physics"] }) := by
  refine ⟨addCourse_rejected_iff lower s, ?_, ?_, ?_⟩
  · intro h
    simp only [addCourse] at h ⊢
    split_ifs at h ⊢
    · exact absurd (rejected_setError _ _ (by decide)) h
    · exact absurd (rejected_setError _ _ (by decide)) h
    · exact absurd (rejected_setError _ _ (by decide)) h
    · exact absurd (rejected_setError _ _ (by decide)) h
    · exact ⟨rfl, rfl, rfl, rfl⟩
  · rw [addCourse_rejected_iff]
    exact Or.inr (Or.inr (Or.inl (by decide)))
  · rw [addCourse_rejected_iff]
    rintro (h | h | h | ⟨c, hc, _⟩)
    · exact absurd h (by decide)
    · exact absurd h (by decide)
    · exact absurd h (by decide)
    · exact absurd hc (by simp [init])

/-! ## Subject names -/

theorem addSubject_subjects_nodup (lower : JSString → JSString) (s : State)
    (h : (s.subjects.map lower).Nodup) : ((addSubject lower s).subjects.map lower).Nodup := by
  simp only [addSubject]
  split_ifs with h1 h2
  · exact h
  · exact h
  · have hno : ∀ x ∈ s.subjects, lower x ≠ lower (trim s.name) := by
      intro x hx e
      exact h2 (List.any_eq_true.mpr ⟨x, hx, by simpa using e⟩)
    show ((s.subjects ++ [trim s.name]).map lower).Nodup
    rw [List.map_append, List.nodup_append]
    refine ⟨h, by simp, ?_⟩
    intro a ha hb
    obtain ⟨x, hx, rfl⟩ := List.mem_map.mp ha
    simp only [List.map_cons, List.map_nil, List.mem_singleton] at hb
    exact hno x hx hb

theorem step_subjects_nodup (lower : JSString → JSString) (a : Action) (s : State)
    (h : (s.subjects.map lower).Nodup) : ((step lower a s).subjects.map lower).Nodup := by
  cases a with
  | addSubject => exact addSubject_subjects_nodup lower s h
  | deleteSubject x => exact h.sublist ((List.filter_sublist _).map lower)
  | addCourse =>
      simp only [step, addCourse]
      split_ifs <;> exact h
  | addBatch =>
      simp only [step, addBatch]
      split_ifs <;> exact h
  | addStudent =>
      simp only [step, addStudent]
      split_ifs <;> exact h
  | _ => exact h

theorem reachable_subjects_nodup (lower : JSString → JSString) (s : State)
    (hs : Reachable lower s) : (s.subjects.map lower).Nodup :=
  reachable_invariant lower (fun t => (t.subjects.map lower).Nodup) (by simp [init])
    (step_subjects_nodup lower) s hs

theorem step_subject_kept (lower : JSString → JSString) (e : JSString) (a : Action) (s : State)
    (ha : a ≠ Action.deleteSubject e) (h : e ∈ s.subjects) : e ∈ (step lower a s).subjects := by
  cases a with
  | addSubject =>
      simp only [step, addSubject]
      split_ifs
      · exact h
      · exact h
      · exact List.mem_append_left _ h
  | deleteSubject x =>
      have hx : e ≠ x := fun e2 => ha (by rw [e2])
      simp only [step, deleteSubject, List.mem_filter]
      exact ⟨h, by simpa using hx⟩
  | addCourse =>
      simp only [step, addCourse]
      split_ifs <;> exact h
  | addBatch =>
      simp only [step, addBatch]
      split_ifs <;> exact h
  | addStudent =>
      simp only [step, addStudent]
      split_ifs <;> exact h
  | _ => exact h

theorem filter_lower_length (lower : JSString → JSString) (e : JSString) :
    ∀ (l : List JSString), (l.map lower).Nodup → e ∈ l →
      (l.filter (fun y => lower y = lower e)).length = 1
  | [], _, h => absurd h (List.not_mem_nil e)
  | y :: l, hnd, h => by
      rw [List.map_cons, List.nodup_cons] at hnd
      by_cases hy : lower y = lower e
      · have hnone : l.filter (fun z => decide (lower z = lower e)) = [] := by
          rw [List.filter_eq_nil_iff]
          intro z hz hz2
          have hz3 : lower z = lower e := by simpa using hz2
          exact hnd.1 (List.mem_map.mpr ⟨z, hz, hz3.trans hy.symm⟩)
        simp [List.filter_cons, hy, hnone]
      · have he : e ∈ l := by
          rcases List.mem_cons.mp h with h1 | h1
          · exact absurd (by rw [h1]) hy
          · exact h1
        simp only [List.filter_cons, hy, decide_False, Bool.false_eq_true, if_false]
        exact filter_lower_length lower e l hnd.2 he

theorem addSubject_duplicate (lower : JSString → JSString) (t : State) (e : JSString)
    (he : e ∈ t.subjects) (hl : lower (trim t.name) = lower e) :
    Rejected (addSubject lower t) ∧ (addSubject lower t).subjects = t.subjects := by
  simp only [addSubject]
  split_ifs with h1 h2
  · exact ⟨rejected_setError _ _ (by decide), rfl⟩
  · exact ⟨rejected_setError _ _ (by decide), rfl⟩
  · exact absurd (List.any_eq_true.mpr ⟨e, he, by simpa using hl.symm⟩) h2

/-- Claim C5.  In every state reachable from the empty registry no two entries at
different positions of the subject list are equal after lower-casing.  Hence,
once `addSubject` has accepted a name `x`, and as long as no `deleteSubject`
of the stored entry has been issued since, `addSubject` on any name `y` whose
trimmed, lower-cased form is that of `x` is rejected, leaves the subject list
as it was, and the list holds exactly one entry with that lower-cased form. -/
theorem subject_uniqueness (lower : JSString → JSString) :
    (∀ s : State, Reachable lower s →
      ∀ (i j : Nat) (hi : i < s.subjects.length) (hj : j < s.subjects.length), i ≠ j →
        lower (s.subjects.get ⟨i, hi⟩) ≠ lower (s.subjects.get ⟨j, hj⟩)) ∧
    (∀ (s0 : State) (x y : JSString) (acts : List Action), Reachable lower s0 →
      ¬ Rejected (addSubject lower { s0 with name := x }) →
      (∀ a ∈ acts, a ≠ Action.deleteSubject (trim x)) →
      lower (trim y) = lower (trim x) →
      Rejected (addSubject lower
        { run lower acts (addSubject lower { s0 with name := x }) with name := y }) ∧
      (addSubject lower
        { run lower acts (addSubject lower { s0 with name := x }) with name := y }).subjects =
        (run lower acts (addSubject lower { s0 with name := x })).subjects ∧
      ((run lower acts (addSubject lower { s0 with name := x })).subjects.filter
        (fun e => lower e = lower (trim x))).length = 1) := by
  constructor
  · intro s hs i j hi hj hij e
    have hnd := reachable_subjects_nodup lower s hs
    have hi2 : i < (s.subjects.map lower).length := by simpa using hi
    have hj2 : j < (s.subjects.map lower).length := by simpa using hj
    have := (List.Nodup.get_inj_iff hnd (i := ⟨i, hi2⟩) (j := ⟨j, hj2⟩)).mp
      (by simpa using e)
    exact hij (by simpa using this)
  · intro s0 x y acts hs0 hacc hacts hxy
    have hs1 : Reachable lower (addSubject lower { s0 with name := x }) :=
      reachable_step lower Action.addSubject _ (reachable_step lower (Action.setName x) s0 hs0)
    have hmem1 : trim x ∈ (addSubject lower { s0 with name := x }).subjects := by
      simp only [addSubject] at hacc ⊢
      split_ifs at hacc ⊢
      · exact absurd (rejected_setError _ _ (by decide)) hacc
      · exact absurd (rejected_setError _ _ (by decide)) hacc
      · exact List.mem_append_right _ (List.mem_singleton.mpr rfl)
    have hmem2 : trim x ∈ (run lower acts (addSubject lower { s0 with name := x })).subjects :=
      run_invariant lower (fun t => trim x ∈ t.subjects)
        (fun a => a ≠ Action.deleteSubject (trim x))
        (fun a t ha ht => step_subject_kept lower (trim x) a t ha ht) acts _ hacts hmem1
    have hs2 := reachable_run lower acts _ hs1
    have hdup := addSubject_duplicate lower
      { run lower acts (addSubject lower { s0 with name := x }) with name := y } (trim x)
      hmem2 hxy
    exact ⟨hdup.1, hdup.2, filter_lower_length lower (trim x) _
      (reachable_subjects_nodup lower _ hs2) hmem2⟩

/-! ## Course cardinality -/

theorem filter_ne_length (x : JSString) :
    ∀ (l : List JSString), l.Nodup → l.length ≤ (l.filter (fun y => y ≠ x)).length + 1
  | [], _ => by simp
  | y :: l, hnd => by
      rw [List.nodup_cons] at hnd
      by_cases hy : y = x
      · subst hy
        have hself : l.filter (fun z => decide (z ≠ y)) = l := by
          rw [List.filter_eq_self]
          intro z hz
          have : z ≠ y := fun e => hnd.1 (e ▸ hz)
          simpa using this
        rw [List.filter_cons, hself]
        simp
      · have ih := filter_ne_length x l hnd.2
        simp only [List.filter_cons, ne_eq, hy, not_false_eq_true, decide_True, if_true,
          List.length_cons]
        exact Nat.succ_le_succ ih

theorem deleteSubject_wellFormed (x : JSString) (c : Course) (h : WellFormedCourse c)
    (hx : x ∈ c.subjects → 3 ≤ c.subjects.length) :
    WellFormedCourse { c with subjects := c.subjects.filter (fun y => y ≠ x) } := by
  refine ⟨?_, h.2.filter _⟩
  show 2 ≤ (c.subjects.filter (fun y => y ≠ x)).length
  by_cases hm : x ∈ c.subjects
  · have h3 := hx hm
    have hb := filter_ne_length x c.subjects h.2
    omega
  · have hself : c.subjects.filter (fun y => decide (y ≠ x)) = c.subjects := by
      rw [List.filter_eq_self]
      intro y hy
      have : y ≠ x := fun e => hm (e ▸ hy)
      simpa using this
    rw [hself]
    exact h.1

theorem step_courses_wellFormed (lower : JSString → JSString) (a : Action) (s : State)
    (ha : sparesCourses s a = true)
    (h : s.selectedSubjects.Nodup ∧ ∀ c ∈ s.courses, WellFormedCourse c) :
    (step lower a s).selectedSubjects.Nodup ∧
      ∀ c ∈ (step lower a s).courses, WellFormedCourse c := by
  cases a with
  | deleteSubject x =>
      refine ⟨h.1, ?_⟩
      intro c hc
      simp only [step, deleteSubject, List.mem_map] at hc
      obtain ⟨c0, hc0, rfl⟩ := hc
      have hall : ∀ d ∈ s.courses, x ∈ d.subjects → 3 ≤ d.subjects.length := by
        intro d hd
        have hd2 := List.all_eq_true.mp ha d hd
        exact of_decide_eq_true hd2
      exact deleteSubject_wellFormed x c0 (h.2 c0 hc0) (hall c0 hc0)
  | toggleSubject x =>
      refine ⟨?_, h.2⟩
      simp only [step, toggleSubject]
      split_ifs with hx
      · exact h.1.filter _
      · exact List.Nodup.append h.1 (List.nodup_singleton x) (by simpa using hx)
  | selectBatch v => exact ⟨List.nodup_singleton v, h.2⟩
  | addCourse =>
      simp only [step, addCourse]
      split_ifs with h1 h2 h3 h4
      · exact h
      · exact h
      · exact h
      · exact h
      · refine ⟨List.nodup_nil, ?_⟩
        intro c hc
        rcases List.mem_append.mp hc with hc | hc
        · exact h.2 c hc
        · rw [List.mem_singleton.mp hc]
          exact ⟨Nat.le_of_not_lt h3, h.1⟩
  | deleteCourse n =>
      exact ⟨h.1, fun c hc => h.2 c (List.mem_filter.mp hc).1⟩
  | addSubject =>
      simp only [step, addSubject]
      split_ifs <;> exact h
  | addBatch =>
      simp only [step, addBatch]
      split_ifs <;> exact h
  | addStudent =>
      simp only [step, addStudent]
      split_ifs
      · exact h
      · exact ⟨List.nodup_nil, h.2⟩
  | _ => exact h

theorem sparing_run_wellFormed (lower : JSString → JSString) :
    ∀ (acts : List Action) (s : State), sparingTrace lower s acts = true →
      (s.selectedSubjects.Nodup ∧ ∀ c ∈ s.courses, WellFormedCourse c) →
      (run lower acts s).selectedSubjects.Nodup ∧
        ∀ c ∈ (run lower acts s).courses, WellFormedCourse c
  | [], _, _, h => h
  | a :: acts, s, ht, h => by
      simp only [sparingTrace, Bool.and_eq_true] at ht
      exact sparing_run_wellFormed lower acts (step lower a s) ht.2
        (step_courses_wellFormed lower a s ht.1 h)

/-- Claim C7, as amended.  In every state reached from the empty registry by a
finite sequence of events in which no `deleteSubject x` is fired while a stored
course lists `x` among fewer than 3 subjects, every course in the course list
has at least 2 subjects, all different.  Every other event is allowed,
`deleteSubject` of a subject no course lists included. -/
theorem course_cardinality_sparing (lower : JSString → JSString) (acts : List Action)
    (hacts : sparingTrace lower init acts = true) :
    ∀ c ∈ (run lower acts init).courses, 2 ≤ c.subjects.length ∧ c.subjects.Nodup :=
  (sparing_run_wellFormed lower acts init hacts ⟨List.nodup_nil, by simp [init]⟩).2

theorem course_cardinality_sparing_witness :
    sparingTrace asciiLower init createAll = true ∧
    uiTrace asciiLower init createAll = true ∧
    (run asciiLower createAll init).subjects = [js "Math", js "Physics"] ∧
    (run asciiLower createAll init).courses =
      [{ name := js "All", subjects := [js "Math", js "Physics"] }] ∧
    sparingTrace asciiLower init shrinkSci = false ∧
    ∀ c ∈ (run asciiLower createAll init).courses, 2 ≤ c.subjects.length ∧ c.subjects.Nodup :=
  ⟨by decide, by decide, by decide, by decide, by decide,
    course_cardinality_sparing asciiLower createAll (by decide)⟩

/-- Claim C7, as stated, fails.  The session `shrinkSci`, every event of which the
rendered page offers, reaches a state whose only course, Sci, has the single
subject Physics. -/
theorem course_cardinality_counterexample :
    uiTrace asciiLower init shrinkSci = true ∧
    (run asciiLower shrinkSci init).courses =
      [{ name := js "Sci", subjects := [js "Physics"] }] ∧
    ¬ (∀ s : State, Reachable asciiLower s → ∀ c ∈ s.courses, 2 ≤ c.subjects.length) := by
  refine ⟨by decide, by decide, ?_⟩
  intro h
  have h2 := h (run asciiLower shrinkSci init) ⟨shrinkSci, rfl⟩
    { name := js "Sci", subjects := [js "Physics"] } (by decide)
  exact absurd h2 (by decide)

/-! ## References to courses -/

/-- Claim C6 fails on the code.  In the session `orphanBatch` the course Sci is
selected on the batches page and then deleted on the courses page;
`deleteCourse` leaves `selectedCourse` as it was, so the batch form, submitted
next, stores a batch of course Sci while the course list is empty.  The session
`orphanStudent` does the same with the student form.  The rendered page offers
every event of both sessions. -/
theorem stale_course_selection :
    uiTrace asciiLower init orphanBatch = true ∧
    (run asciiLower orphanBatch init).courses = [] ∧
    (run asciiLower orphanBatch init).batches =
      [{ name := js "A", course := js "Sci", start := js "09:00", end_ := js "10:00" }] ∧
    uiTrace asciiLower init orphanStudent = true ∧
    (run asciiLower orphanStudent init).courses = [] ∧
    (run asciiLower orphanStudent init).students =
      [{ name := js "Bob", course := js "Sci", batch := js "Math" }] ∧
    ¬ (∀ s : State, Reachable asciiLower s →
        (∀ b ∈ s.batches, ∃ c ∈ s.courses, c.name = b.course) ∧
        (∀ st ∈ s.students, ∃ c ∈ s.courses, c.name = st.course)) := by
  refine ⟨by decide, by decide, by decide, by decide, by decide, by decide, ?_⟩
  intro h
  have h2 := (h (run asciiLower orphanBatch init) ⟨orphanBatch, rfl⟩).1
    { name := js "A", course := js "Sci", start := js "09:00", end_ := js "10:00" }
    (by decide)
  obtain ⟨c, hc, _⟩ := h2
  have hnil : (run asciiLower orphanBatch init).courses = [] := by decide
  rw [hnil] at hc
  exact absurd hc (List.not_mem_nil c)

/-! ## The theorems at concrete sessions -/

theorem scheduling_invariant_witness :
    Reachable asciiLower withBatchC ∧
    withBatchC.batches =
      [{ name := js "A", course := js "Sci", start := js "09:00", end_ := js "10:00" },
       { name := js "C", course := js "Sci", start := js "10:00", end_ := js "11:00" }] ∧
    ((∀ b ∈ withBatchC.batches, strLt b.start b.end_ = true) ∧
     (∀ (i j : Nat) (hi : i < withBatchC.batches.length) (hj : j < withBatchC.batches.length),
      i ≠ j →
      (withBatchC.batches.get ⟨i, hi⟩).course = (withBatchC.batches.get ⟨j, hj⟩).course →
      strLe (withBatchC.batches.get ⟨i, hi⟩).end_ (withBatchC.batches.get ⟨j, hj⟩).start = true ∨
      strLe (withBatchC.batches.get ⟨j, hj⟩).end_ (withBatchC.batches.get ⟨i, hi⟩).start = true)) :=
  ⟨⟨createBatchC, rfl⟩, by decide,
    scheduling_invariant asciiLower withBatchC ⟨createBatchC, rfl⟩⟩

theorem addBatch_acceptance_witness :
    withBatchA.batches =
      [{ name := js "A", course := js "Sci", start := js "09:00", end_ := js "10:00" }] ∧
    ¬ Rejected (addBatch (fillBatch (js "C") (js "Sci") (js "10:00") (js "11:00") withBatchA)) ∧
    (addBatch (fillBatch (js "C") (js "Sci") (js "10:00") (js "11:00") withBatchA)).batches =
      [{ name := js "A", course := js "Sci", start := js "09:00", end_ := js "10:00" },
       { name := js "C", course := js "Sci", start := js "10:00", end_ := js "11:00" }] ∧
    Rejected (addBatch (fillBatch (js "B") (js "Sci") (js "09:30") (js "10:30") withBatchA)) ∧
    ¬ Rejected (addBatch (fillBatch (js "D") (js "Art") (js "09:00") (js "10:00") withBatchA)) ∧
    Rejected (addBatch (fillBatch (js "X") (js "Sci") (js "10:00") (js "09:00") withBatchA)) := by
  have hC := addBatch_acceptance
    (fillBatch (js "C") (js "Sci") (js "10:00") (js "11:00") withBatchA)
    (by decide) (by decide) (by decide) (by decide)
  have hD := addBatch_acceptance
    (fillBatch (js "D") (js "Art") (js "09:00") (js "10:00") withBatchA)
    (by decide) (by decide) (by decide) (by decide)
  have hB := addBatch_acceptance
    (fillBatch (js "B") (js "Sci") (js "09:30") (js "10:30") withBatchA)
    (by decide) (by decide) (by decide) (by decide)
  have accC := hC.2.2.2.1 (by decide) (by decide)
  refine ⟨by decide, accC, ?_, ?_, hD.2.2.2.2 (by decide) (by decide), by decide⟩
  · rw [hC.2.1 accC]
    decide
  · by_contra hrej
    exact ((hB.1.mp hrej).2) (by decide)

theorem atomic_rejection_witness :
    Rejected (step asciiLower Action.addBatch
      (fillBatch (js "B") (js "Sci") (js "09:30") (js "10:30") withBatchA)) ∧
    (SameCollections (fillBatch (js "B") (js "Sci") (js "09:30") (js "10:30") withBatchA)
      (step asciiLower Action.addBatch
        (fillBatch (js "B") (js "Sci") (js "09:30") (js "10:30") withBatchA)) ∧
     step asciiLower Action.addBatch
        (fillBatch (js "B") (js "Sci") (js "09:30") (js "10:30") withBatchA) =
      setError (step asciiLower Action.addBatch
        (fillBatch (js "B") (js "Sci") (js "09:30") (js "10:30") withBatchA)).error
        (fillBatch (js "B") (js "Sci") (js "09:30") (js "10:30") withBatchA)) :=
  ⟨by decide,
    atomic_rejection asciiLower
      (fillBatch (js "B") (js "Sci") (js "09:30") (js "10:30") withBatchA) Action.addBatch
      (Or.inr (Or.inr (Or.inl rfl))) (by decide)⟩

theorem subject_uniqueness_witness :
    (run asciiLower afterMath (addSubject asciiLower { init with name := js "Math" })).subjects =
      [js "Math", js "Physics"] ∧
    (Rejected (addSubject asciiLower
      { run asciiLower afterMath (addSubject asciiLower { init with name := js "Math" }) with
        name := js " math " }) ∧
     (addSubject asciiLower
      { run asciiLower afterMath (addSubject asciiLower { init with name := js "Math" }) with
        name := js " math " }).subjects =
      (run asciiLower afterMath (addSubject asciiLower { init with name := js "Math" })).subjects ∧
     ((run asciiLower afterMath
        (addSubject asciiLower { init with name := js "Math" })).subjects.filter
        (fun e => asciiLower e = asciiLower (trim (js "Math")))).length = 1) :=
  ⟨by decide,
    (subject_uniqueness asciiLower).2 init (js "Math") (js " math ") afterMath
      (reachable_init asciiLower) (by decide) (by decide) (by decide)⟩

theorem deleteSubject_cascade_witness :
    js "Chemistry" ∉ withSci.subjects ∧
    (deleteSubject (js "Chemistry") withSci).subjects = withSci.subjects ∧
    (deleteSubject (js "Math") withSci).courses.map Course.subjects = [[js "Physics"]] :=
  ⟨by decide,
    (deleteSubject_cascade (js "Chemistry") withSci).2.2.2.2.2.2.2.2 (by decide),
    by decide⟩

theorem addCourse_acceptance_witness :
    ¬ Rejected (addCourse asciiLower (run asciiLower fillSci init)) ∧
    ((addCourse asciiLower (run asciiLower fillSci init)).courses =
      (run asciiLower fillSci init).courses ++
        [{ name := trim (run asciiLower fillSci init).name,
           subjects := (run asciiLower fillSci init).selectedSubjects }] ∧
     (addCourse asciiLower (run asciiLower fillSci init)).subjects =
      (run asciiLower fillSci init).subjects ∧
     (addCourse asciiLower (run asciiLower fillSci init)).batches =
      (run asciiLower fillSci init).batches ∧
     (addCourse asciiLower (run asciiLower fillSci init)).students =
      (run asciiLower fillSci init).students) :=
  ⟨by decide, (addCourse_acceptance asciiLower (run asciiLower fillSci init)).2.1 (by decide)⟩

end TrainingApp
